import Mathlib

/-!
Verification development for `flaskext/mongoengine/wtf/orm.py`, the layer
that converts a mongoengine document schema into wtforms form fields.

The embedding is shallow: mongoengine field descriptors become an inductive
`MField` (the attributes the module reads: `name`, `required`, `choices`,
`default`, the optional `to_form_field` escape hatch, and the per-type
constraint attributes), wtforms field constructors become the inductive
`FormField`, and the wtforms keyword-argument dict built by
`ModelConverter.convert` becomes the record `Kwargs` (a key that may be
absent from the dict is an `Option`; `validators` and `filters` are present
in every dict the module builds, so they are plain lists).

Python truthiness is modelled explicitly: `None` and `0` are falsy for the
integer-valued constraint attributes, `None` and the empty collection are
falsy for `choices`, `only` and `exclude`.

`model._fields` is a dict (unique keys) modelled as the association list
`MFields`; its list order stands for the iteration order of the walk (the
optional `_fields_order` attribute only changes that order, which the spec
declares unspecified, so it is not modelled separately).
-/

namespace Orm

/-- Python truthiness of an optional integer attribute: `None` and `0` are falsy. -/
def truthyI : Option Int → Bool
  | none => false
  | some v => v != 0

/-- Python `v or d` for an optional integer attribute: the value when truthy, else `d`. -/
def pyOrI (v : Option Int) (d : Int) : Int :=
  match v with
  | none => d
  | some x => if x != 0 then x else d

/-- Python truthiness of an optional name collection: `None` and the empty collection are falsy. -/
def truthyL : Option (List String) → Bool
  | none => false
  | some l => !l.isEmpty

/-- The wtforms validator values the module constructs (`validators.Required()`,
`Length`, `NumberRange`, `URL`, `Email`, `Regexp`). `length` records the
`min`/`max` arguments actually passed (`-1` is the wtforms default used as the
"unbounded" sentinel); `numberRange` keeps the raw optional bounds since
`_number_common` passes `field.max_value` / `field.min_value` unmodified. -/
inductive Validator where
  | required
  | length (min max : Int)
  | numberRange (min max : Option Int)
  | url
  | email
  | regexp (regex : String)
deriving DecidableEq

/-- The keyword-argument dict handed to a wtforms field constructor.
An `Option` field set to `none` means the key is absent from the dict
(`conv_List` and `conv_EmbeddedDocument` rebuild the dict with only
`validators` and `filters`). `label` and `default` hold Python values that
may themselves be `None`, hence the nested `Option`. -/
structure Kwargs where
  label : Option (Option String)
  description : Option String
  validators : List Validator
  filters : List String
  default : Option (Option String)
  choices : Option (List String)
deriving DecidableEq

/-- A caller-supplied per-field keyword-argument dict (`field_args[name]`):
each key is optional, and `kwargs.update(field_args)` replaces the base value
wholesale when the key is present. -/
structure FieldArgs where
  label : Option (Option String)
  description : Option String
  validators : Option (List Validator)
  filters : Option (List String)
  default : Option (Option String)
deriving DecidableEq

/-- `kwargs.update(field_args)`: every key present in `field_args` replaces the
base entry wholesale; absent keys leave the base entry unchanged. -/
def updateKwargs (k : Kwargs) (fa : FieldArgs) : Kwargs :=
  { label := match fa.label with
      | some v => some v
      | none => k.label
    description := match fa.description with
      | some v => some v
      | none => k.description
    validators := match fa.validators with
      | some v => v
      | none => k.validators
    filters := match fa.filters with
      | some v => v
      | none => k.filters
    default := match fa.default with
      | some v => some v
      | none => k.default
    choices := k.choices }

/-- The attributes `ModelConverter.convert` reads off every field descriptor:
`field.name` (may be `None` for the unnamed inner field of a list),
`field.required`, `field.choices` (empty models `None`), `field.default`,
and the optional `to_form_field` escape-hatch method (modelled opaquely by a
tag naming the custom form field it would build). -/
structure Attrs where
  name : Option String
  required : Bool
  choices : List String
  default : Option String
  toFormField : Option String
deriving DecidableEq

mutual

/-- A mongoengine field descriptor, one constructor per field type the
converter registry handles, carrying exactly the constraint attributes the
corresponding `conv_*` method reads. `otherField` stands for any field type
with no registered converter. -/
inductive MField where
  | stringField (attrs : Attrs) (maxLength minLength : Option Int) (regex : Option String)
  | urlField (attrs : Attrs) (maxLength minLength : Option Int)
  | emailField (attrs : Attrs) (maxLength minLength : Option Int)
  | intField (attrs : Attrs) (maxValue minValue : Option Int)
  | floatField (attrs : Attrs) (maxValue minValue : Option Int)
  | decimalField (attrs : Attrs) (maxValue minValue : Option Int)
  | booleanField (attrs : Attrs)
  | dateTimeField (attrs : Attrs)
  | binaryField (attrs : Attrs) (maxBytes : Option Int)
  | dictField (attrs : Attrs)
  | listField (attrs : Attrs) (elem : MField)
  | sortedListField (attrs : Attrs) (elem : MField)
  | geoLocationField (attrs : Attrs)
  | objectIdField (attrs : Attrs)
  | embeddedDocumentField (attrs : Attrs) (doc : MDocument)
  | referenceField (attrs : Attrs) (docName : String)
  | genericReferenceField (attrs : Attrs)
  | otherField (attrs : Attrs) (typeName : String)

/-- A mongoengine document schema class: its `__name__` and its `_fields` dict. -/
inductive MDocument where
  | mk (name : String) (fields : MFields)

/-- The `_fields` dict of a document: an association list of unique names. -/
inductive MFields where
  | nil
  | cons (name : String) (field : MField) (rest : MFields)

end

/-- The common attributes of a field descriptor. -/
def MField.attrsOf : MField → Attrs
  | .stringField a _ _ _ => a
  | .urlField a _ _ => a
  | .emailField a _ _ => a
  | .intField a _ _ => a
  | .floatField a _ _ => a
  | .decimalField a _ _ => a
  | .booleanField a => a
  | .dateTimeField a => a
  | .binaryField a _ => a
  | .dictField a => a
  | .listField a _ => a
  | .sortedListField a _ => a
  | .geoLocationField a => a
  | .objectIdField a => a
  | .embeddedDocumentField a _ => a
  | .referenceField a _ => a
  | .genericReferenceField a => a
  | .otherField a _ => a

/-- The `__name__` of a document class. -/
def MDocument.nameOf : MDocument → String
  | .mk n _ => n

/-- The `_fields` dict of a document class. -/
def MDocument.fieldsOf : MDocument → MFields
  | .mk _ fs => fs

/-- The keys of the `_fields` dict, in iteration order. -/
def MFields.keys : MFields → List String
  | .nil => []
  | .cons n _ rest => n :: keys rest

/-- `model._fields[name]` as a total lookup. -/
def MFields.lookupF : MFields → String → Option MField
  | .nil, _ => none
  | .cons n f rest, name => if n = name then some f else lookupF rest name

mutual

/-- A constructed wtforms field, one constructor per wtforms field class the
module instantiates, each carrying the keyword-argument dict it was built
with. `fieldList` additionally carries the recursively converted inner field
(which may be `none`, since `conv_List` passes the recursive result to
`f.FieldList` unchecked) and `min_entries`. `subFormField` carries the
synthesized embedded form class (its name, its field dict, and the
`model_class` entry, recorded by document name). `customField` is the opaque
result of a field's own `to_form_field` method. -/
inductive FormField where
  | selectField (kwargs : Kwargs)
  | textField (kwargs : Kwargs)
  | textAreaField (kwargs : Kwargs)
  | integerField (kwargs : Kwargs)
  | floatField (kwargs : Kwargs)
  | decimalField (kwargs : Kwargs)
  | booleanField (kwargs : Kwargs)
  | dateTimeField (kwargs : Kwargs)
  | fieldList (inner : Option FormField) (minEntries : Nat) (kwargs : Kwargs)
  | subFormField (formName : String) (formFields : FormFields) (modelClassName : String) (kwargs : Kwargs)
  | modelSelectField (modelName : String) (kwargs : Kwargs)
  | customField (tag : String) (kwargs : Kwargs)

/-- The field dict produced by the schema walk: name → form field, in walk order. -/
inductive FormFields where
  | nil
  | cons (name : String) (field : FormField) (rest : FormFields)

end

/-- The keyword-argument dict a form field was constructed with. -/
def FormField.kwargsOf : FormField → Kwargs
  | .selectField k => k
  | .textField k => k
  | .textAreaField k => k
  | .integerField k => k
  | .floatField k => k
  | .decimalField k => k
  | .booleanField k => k
  | .dateTimeField k => k
  | .fieldList _ _ k => k
  | .subFormField _ _ _ k => k
  | .modelSelectField _ k => k
  | .customField _ k => k

/-- The keys of a produced field dict, in walk order. -/
def FormFields.keys : FormFields → List String
  | .nil => []
  | .cons n _ rest => n :: keys rest

/-- Lookup in a produced field dict. -/
def FormFields.lookupF : FormFields → String → Option FormField
  | .nil, _ => none
  | .cons n f rest, name => if n = name then some f else lookupF rest name

/-- `field_args.get(name)` on the caller-supplied per-field override dict. -/
def getFA : List (String × FieldArgs) → String → Option FieldArgs
  | [], _ => none
  | (n, fa) :: rest, name => if n = name then some fa else getFA rest name

/-- The base keyword arguments `convert` always populates (orm.py lines 37-43):
label = field name, empty description, empty validator list, empty filter
list, default = the field's declared default. -/
def baseKwargs (a : Attrs) : Kwargs :=
  { label := some a.name
    description := some ""
    validators := []
    filters := []
    default := some a.default
    choices := none }

/-- `kwargs['validators'].append(v)`. -/
def appendValidator (k : Kwargs) (v : Validator) : Kwargs :=
  { k with validators := k.validators ++ [v] }

/-- The replacement kwargs dict `{'validators': [], 'filters': []}` that
`conv_List` and `conv_EmbeddedDocument` rebuild, discarding the inherited one. -/
def listKwargs : Kwargs :=
  { label := none
    description := none
    validators := []
    filters := []
    default := none
    choices := none }

/-- `ModelConverter._string_common` (orm.py lines 62-67): when either length
bound is truthy, append `validators.Length(max=field.max_length or -1,
min=field.min_length or -1)`. -/
def string_common (maxLength minLength : Option Int) (k : Kwargs) : Kwargs :=
  if truthyI maxLength || truthyI minLength then
    appendValidator k (.length (pyOrI minLength (-1)) (pyOrI maxLength (-1)))
  else k

/-- `ModelConverter._number_common` (orm.py lines 69-74): when either value
bound is truthy, append `validators.NumberRange(max=field.max_value,
min=field.min_value)` with the bounds passed unmodified. -/
def number_common (maxValue minValue : Option Int) (k : Kwargs) : Kwargs :=
  if truthyI maxValue || truthyI minValue then
    appendValidator k (.numberRange minValue maxValue)
  else k

/-- `ModelConverter.conv_String` (orm.py lines 76-84). -/
def conv_String (maxLength minLength : Option Int) (regex : Option String) (k : Kwargs) : FormField :=
  let k := match regex with
    | some r => appendValidator k (.regexp r)
    | none => k
  let k := string_common maxLength minLength k
  if maxLength == some (-1) then .textAreaField k else .textField k

/-- `ModelConverter.conv_URL` (orm.py lines 86-90). -/
def conv_URL (maxLength minLength : Option Int) (k : Kwargs) : FormField :=
  let k := appendValidator k .url
  let k := string_common maxLength minLength k
  .textField k

/-- `ModelConverter.conv_Email` (orm.py lines 92-96). -/
def conv_Email (maxLength minLength : Option Int) (k : Kwargs) : FormField :=
  let k := appendValidator k .email
  let k := string_common maxLength minLength k
  .textField k

/-- `ModelConverter.conv_Int` (orm.py lines 98-101). -/
def conv_Int (maxValue minValue : Option Int) (k : Kwargs) : FormField :=
  .integerField (number_common maxValue minValue k)

/-- `ModelConverter.conv_Float` (orm.py lines 103-106). -/
def conv_Float (maxValue minValue : Option Int) (k : Kwargs) : FormField :=
  .floatField (number_common maxValue minValue k)

/-- `ModelConverter.conv_Decimal` (orm.py lines 108-111). -/
def conv_Decimal (maxValue minValue : Option Int) (k : Kwargs) : FormField :=
  .decimalField (number_common maxValue minValue k)

/-- `ModelConverter.conv_Boolean` (orm.py lines 113-115). -/
def conv_Boolean (k : Kwargs) : FormField :=
  .booleanField k

/-- `ModelConverter.conv_DateTime` (orm.py lines 117-119). -/
def conv_DateTime (k : Kwargs) : FormField :=
  .dateTimeField k

/-- `ModelConverter.conv_Binary` (orm.py lines 121-126): when `max_bytes` is
truthy, append `validators.Length(max=field.max_bytes)` (the `min` argument
keeps its wtforms default `-1`), then build a `TextAreaField`. -/
def conv_Binary (maxBytes : Option Int) (k : Kwargs) : FormField :=
  let k := if truthyI maxBytes then appendValidator k (.length (-1) (pyOrI maxBytes (-1))) else k
  .textAreaField k

/-- `ModelConverter.conv_Dict` (orm.py lines 128-130). -/
def conv_Dict (k : Kwargs) : FormField :=
  .textAreaField k

/-- `ModelConverter.conv_Reference` (orm.py lines 164-166):
`ModelSelectField(model=field.document_type, **kwargs)`. -/
def conv_Reference (docName : String) (k : Kwargs) : FormField :=
  .modelSelectField docName k

mutual

/-- `ModelConverter.convert` (orm.py lines 36-60) for the default converter
registry: build the base kwargs, apply the caller's per-field overrides,
append a `Required` validator for a required field, short-circuit a field
with declared choices to a `SelectField`, defer to the field's own
`to_form_field` when it has one, then dispatch on the field's type name
through the registry (the `listField`, `sortedListField` and
`embeddedDocumentField` branches inline `conv_List`, `conv_SortedList` —
which delegates to `conv_List` — and `conv_EmbeddedDocument`, whose bodies
recurse; `conv_EmbeddedDocument` builds
`model_form(field.document_type_obj, field_args={})`, whose walk over the
embedded document is `walkFields` with no filter and no field args).
A type with no registered converter yields `none`. -/
def convert (model : MDocument) (field : MField) (fargs : Option FieldArgs) : Option FormField :=
  let a := field.attrsOf
  let kwargs := baseKwargs a
  let kwargs := match fargs with
    | some fa => updateKwargs kwargs fa
    | none => kwargs
  let kwargs := if a.required then appendValidator kwargs .required else kwargs
  if !a.choices.isEmpty then
    some (.selectField { kwargs with choices := some a.choices })
  else
    match a.toFormField with
    | some tag => some (.customField tag kwargs)
    | none =>
      match field with
      | .stringField _ ml mnl rgx => some (conv_String ml mnl rgx kwargs)
      | .urlField _ ml mnl => some (conv_URL ml mnl kwargs)
      | .emailField _ ml mnl => some (conv_Email ml mnl kwargs)
      | .intField _ mv mnv => some (conv_Int mv mnv kwargs)
      | .floatField _ mv mnv => some (conv_Float mv mnv kwargs)
      | .decimalField _ mv mnv => some (conv_Decimal mv mnv kwargs)
      | .booleanField _ => some (conv_Boolean kwargs)
      | .dateTimeField _ => some (conv_DateTime kwargs)
      | .binaryField _ mb => some (conv_Binary mb kwargs)
      | .dictField _ => some (conv_Dict kwargs)
      | .listField _ elem => some (.fieldList (convert model elem none) 0 listKwargs)
      | .sortedListField _ elem => some (.fieldList (convert model elem none) 0 listKwargs)
      | .geoLocationField _ => none
      | .objectIdField _ => none
      | .embeddedDocumentField _ (.mk dn dfs) =>
          some (.subFormField (dn ++ "Form") (walkFields (.mk dn dfs) (fun _ => true) [] dfs) dn listKwargs)
      | .referenceField _ docName => some (conv_Reference docName kwargs)
      | .genericReferenceField _ => none
      | .otherField _ _ => none

/-- The field loop of `model_fields` (orm.py lines 196-203): for each name
passing the `only`/`exclude` filter `pred`, convert
`model._fields[name]` with `field_args.get(name)` and keep the non-`none`
results. Iterating the (unique-key) dict's bindings directly is the same as
iterating its filtered keys and looking each one up. -/
def walkFields (model : MDocument) (pred : String → Bool) (fieldArgs : List (String × FieldArgs)) (fs : MFields) : FormFields :=
  match fs with
  | .nil => .nil
  | .cons name f rest =>
    if pred name then
      match convert model f (getFA fieldArgs name) with
      | some ff => .cons name ff (walkFields model pred fieldArgs rest)
      | none => walkFields model pred fieldArgs rest
    else walkFields model pred fieldArgs rest

end

/-- `ModelConverter.conv_List` (orm.py lines 132-139): discard the inherited
kwargs, recursively convert the list's element field with no field args, and
wrap it as `f.FieldList(unbound_field, min_entries=0, validators=[],
filters=[])`. The `listField` branch of `convert` inlines this body. -/
def conv_List (model : MDocument) (elem : MField) (_kwargs : Kwargs) : FormField :=
  .fieldList (convert model elem none) 0 listKwargs

/-- `ModelConverter.conv_SortedList` (orm.py lines 141-144): delegates to
`conv_List` unchanged. -/
def conv_SortedList (model : MDocument) (elem : MField) (kwargs : Kwargs) : FormField :=
  conv_List model elem kwargs

/-- The exception `model_fields` raises. -/
inductive PyError where
  | typeError (msg : String)
deriving DecidableEq

/-- A Python class handed to `model_fields`: either a mongoengine document
schema class (`BaseDocument` is among its ancestors) or any other class. -/
inductive PyClass where
  | document (doc : MDocument)
  | other (name : String)

/-- `model_fields` (orm.py lines 173-203): raise `TypeError` unless
`BaseDocument` is in the class's mro; otherwise filter the field names by the
truthiness-tested `only` (taking precedence) or `exclude`, convert each field
with its `field_args` entry, and collect the non-`none` results. -/
def model_fields (model : PyClass) (only exclude : Option (List String)) (fieldArgs : List (String × FieldArgs)) : Except PyError FormFields :=
  match model with
  | .other _ => .error (.typeError "model must be a mongoengine Document schema")
  | .document d =>
    let pred : String → Bool :=
      if truthyL only then fun x => (only.getD []).contains x
      else if truthyL exclude then fun x => !((exclude.getD []).contains x)
      else fun _ => true
    .ok (walkFields d pred fieldArgs d.fieldsOf)

/-- The form class `model_form` synthesizes: `type(model.__name__ + 'Form',
(base_class,), field_dict)` with the extra `model_class` entry (recorded by
document name). -/
structure FormClass where
  name : String
  baseName : String
  fields : FormFields
  modelClassName : String

/-- `model_form` (orm.py lines 206-233). -/
def model_form (model : PyClass) (baseName : String) (only exclude : Option (List String)) (fieldArgs : List (String × FieldArgs)) : Except PyError FormClass :=
  match model with
  | .other _ => .error (.typeError "model must be a mongoengine Document schema")
  | .document d =>
    match model_fields (.document d) only exclude fieldArgs with
    | .error e => .error e
    | .ok fs =>
      .ok { name := d.nameOf ++ "Form"
            baseName := baseName
            fields := fs
            modelClassName := d.nameOf }

/-- An entry of the converter registry: either one of the default `conv_*`
methods (identified by its method name) or a caller-supplied converter
(identified by an opaque index). -/
inductive ConvId where
  | defaultConv (methodName : String)
  | callerConv (id : Nat)
deriving DecidableEq

/-- The default conversion methods and their `@converts(...)` type names, in
the (alphabetical) order `dir(self)` yields them in `ModelConverter.__init__`. -/
def defaultMethods : List (String × String) :=
  [("BinaryField", "conv_Binary"),
   ("BooleanField", "conv_Boolean"),
   ("DateTimeField", "conv_DateTime"),
   ("DecimalField", "conv_Decimal"),
   ("DictField", "conv_Dict"),
   ("EmailField", "conv_Email"),
   ("EmbeddedDocumentField", "conv_EmbeddedDocument"),
   ("FloatField", "conv_Float"),
   ("GenericReferenceField", "conv_GenericReference"),
   ("GeoLocationField", "conv_GeoLocation"),
   ("IntField", "conv_Int"),
   ("ListField", "conv_List"),
   ("ObjectIdField", "conv_ObjectId"),
   ("ReferenceField", "conv_Reference"),
   ("SortedListField", "conv_SortedList"),
   ("StringField", "conv_String"),
   ("URLField", "conv_URL")]

/-- `converters[classname] = obj` on a Python dict modelled as an association
list: replace the binding in place when the key is present, else append. -/
def dictSet : List (String × ConvId) → String → ConvId → List (String × ConvId)
  | [], k, v => [(k, v)]
  | (k', v') :: rest, k, v =>
    if k' = k then (k, v) :: rest else (k', v') :: dictSet rest k v

/-- Registry lookup (`self.converters[ftype]`). -/
def lookupC : List (String × ConvId) → String → Option ConvId
  | [], _ => none
  | (k', v) :: rest, k => if k' = k then some v else lookupC rest k

/-- `ModelConverter.__init__` (orm.py lines 23-34): start from the
caller-supplied converters dict (replaced by a fresh empty dict when falsy),
then write every default method into it under each of its `@converts` names. -/
def buildConverters (callerConverters : Option (List (String × ConvId))) : List (String × ConvId) :=
  let conv0 : List (String × ConvId) :=
    match callerConverters with
    | none => []
    | some c => if c.isEmpty then [] else c
  defaultMethods.foldl (fun acc p => dictSet acc p.1 (.defaultConv p.2)) conv0

/-- Whether a validator is the required-style validator. -/
def isRequiredV : Validator → Bool
  | .required => true
  | _ => false

/-- How many required-style validators a validator list contains. -/
def countRequired (l : List Validator) : Nat :=
  (l.filter isRequiredV).length

/-- The keys of a `model_fields` result (empty on the error case). -/
def resultKeys : Except PyError FormFields → List String
  | .ok fs => fs.keys
  | .error _ => []

/-- The validator list of the field a `model_fields` result binds to `name`. -/
def validatorsAt (e : Except PyError FormFields) (name : String) : Option (List Validator) :=
  match e with
  | .ok fs => (fs.lookupF name).map fun ff => ff.kwargsOf.validators
  | .error _ => none

/-- A field of one of the three unsupported types (geo-location, object-id,
generic-reference) that declares no choices and no `to_form_field` method. -/
def unsupportedPlain : MField → Bool
  | .geoLocationField a => a.choices.isEmpty && a.toFormField.isNone
  | .objectIdField a => a.choices.isEmpty && a.toFormField.isNone
  | .genericReferenceField a => a.choices.isEmpty && a.toFormField.isNone
  | _ => false

/-- The three field types whose converters rebuild the kwargs dict from
scratch (list, sorted-list, embedded-document). -/
def isContainer : MField → Bool
  | .listField _ _ => true
  | .sortedListField _ _ => true
  | .embeddedDocumentField _ _ => true
  | _ => false

/-- The required-validator part `convert` appends for a field's attributes. -/
def reqValidators (a : Attrs) : List Validator :=
  if a.required then [.required] else []

/-- The length-validator part `_string_common` appends for the given bounds. -/
def lengthValidators (ml mnl : Option Int) : List Validator :=
  if truthyI ml || truthyI mnl then [.length (pyOrI mnl (-1)) (pyOrI ml (-1))] else []

/-! ### The round-trip demo schema of the spec

`{name: string(max_length=50, required), age: integer(min_value=0),
tags: list-of-string}`. -/

/-- `name = StringField(max_length=50, required=True)`. -/
def demoNameField : MField :=
  .stringField { name := some "name", required := true, choices := [], default := none,
                 toFormField := none } (some 50) none none

/-- `age = IntField(min_value=0)`. -/
def demoAgeField : MField :=
  .intField { name := some "age", required := false, choices := [], default := none,
              toFormField := none } none (some 0)

/-- The unnamed `StringField()` element descriptor of the `tags` list. -/
def demoTagsElem : MField :=
  .stringField { name := none, required := false, choices := [], default := none,
                 toFormField := none } none none none

/-- `tags = ListField(StringField())`. -/
def demoTagsField : MField :=
  .listField { name := some "tags", required := false, choices := [], default := none,
               toFormField := none } demoTagsElem

/-- The demo schema class. -/
def demoDoc : MDocument :=
  .mk "Demo" (.cons "name" demoNameField (.cons "age" demoAgeField
    (.cons "tags" demoTagsField .nil)))

/-- The kwargs the walk builds for `name`: the `Required` validator appended
first, then the `Length` validator with the `-1` sentinel min and max 50. -/
def kwName : Kwargs :=
  { label := some (some "name"), description := some "",
    validators := [.required, .length (-1) 50], filters := [],
    default := some none, choices := none }

/-- The kwargs the walk builds for `age`: no validator at all, because
`min_value=0` is falsy in `_number_common`'s truthiness test. -/
def kwAge : Kwargs :=
  { label := some (some "age"), description := some "",
    validators := [], filters := [],
    default := some none, choices := none }

/-- The kwargs of the inner text field of `tags` (label is the inner field's
`None` name). -/
def kwTagsInner : Kwargs :=
  { label := some none, description := some "",
    validators := [], filters := [],
    default := some none, choices := none }

/-- The full mapping `model_fields` builds for the demo schema. -/
def demoExpected : FormFields :=
  .cons "name" (.textField kwName) (.cons "age" (.integerField kwAge)
    (.cons "tags" (.fieldList (some (.textField kwTagsInner)) 0 listKwargs) .nil))

/-- The caller override `field_args={"age": {"label": "Years"}}`. -/
def demoYearsArgs : List (String × FieldArgs) :=
  [("age", { label := some (some "Years"), description := none, validators := none,
             filters := none, default := none })]

/-- The `age` kwargs with only the label replaced by the caller's override. -/
def kwAgeYears : Kwargs :=
  { kwAge with label := some (some "Years") }

/-- The demo mapping with the `age` label overridden, all else unchanged. -/
def demoExpectedYears : FormFields :=
  .cons "name" (.textField kwName) (.cons "age" (.integerField kwAgeYears)
    (.cons "tags" (.fieldList (some (.textField kwTagsInner)) 0 listKwargs) .nil))

/-- A required list-of-string field (`tags` with `required=True`). -/
def demoReqTags : MField :=
  .listField { name := some "tags", required := true, choices := [], default := none,
               toFormField := none } demoTagsElem

/-- A geo-location field that declares a fixed choice list. -/
def demoGeoChoices : MField :=
  .geoLocationField { name := some "loc", required := false, choices := ["here", "there"],
                      default := none, toFormField := none }

/-- A schema whose only field is the geo-location field with choices. -/
def demoGeoDoc : MDocument :=
  .mk "Geo" (.cons "loc" demoGeoChoices .nil)

/-- A geo-location field with no choices and no `to_form_field`. -/
def demoGeoPlain : MField :=
  .geoLocationField { name := some "loc", required := false, choices := [],
                      default := none, toFormField := none }

/-- A schema containing the plain geo-location field next to a supported field. -/
def demoGeoPlainDoc : MDocument :=
  .mk "Geo2" (.cons "loc" demoGeoPlain (.cons "age" demoAgeField .nil))

/-- An unconstrained string field descriptor for the C10 witness. -/
def demoStrAttrs : Attrs :=
  { name := some "s", required := false, choices := [], default := none, toFormField := none }

/-!  ### Claim theorems -/

/-- C1, counterexample: on the round-trip demo schema the claim says the
`age` integer field's validators contain a number-range validator with
min=0; the built mapping actually gives `age` an empty validator list,
because `_number_common` guards on `field.max_value or field.min_value` and
the declared `min_value=0` is falsy. -/
theorem C1_age_range_counterexample :
    validatorsAt (model_fields (.document demoDoc) none none []) "age"
      = some ([] : List Validator) := rfl

/-- C1 (amended): for the demo schema the built field mapping has exactly the
keys `name`, `age`, `tags`; `name` is a single-line text field with a
required validator followed by a length validator (min=-1 sentinel, max=50);
`age` is an integer field with an empty validator list (no range validator,
since the declared `min_value=0` is falsy in `_number_common`); `tags` is a
repeatable field group with `min_entries=0` wrapping a single-line text
field. -/
theorem C1_round_trip_amended :
    model_fields (.document demoDoc) none none [] = .ok demoExpected := rfl

/-- C2, counterexample: a required list field converts to a `FieldList` whose
validator list is empty — `conv_List` discards the inherited kwargs (and with
them the appended `Required` validator), so the produced field has zero
required-style validators, not exactly one. -/
theorem C2_required_list_counterexample :
    convert demoDoc demoReqTags none
        = some (.fieldList (some (.textField kwTagsInner)) 0 listKwargs)
      ∧ countRequired listKwargs.validators = 0 :=
  ⟨rfl, rfl⟩

/-- C3, counterexample: constructing the registry with a caller-supplied
mapping that binds `IntField` to the caller's converter yields a registry
whose `IntField` entry is the default `conv_Int`, not the caller's entry —
the `__init__` loop writes the default methods into the caller's dict last,
so defaults win on key collision. -/
theorem C3_caller_override_counterexample :
    lookupC (buildConverters (some [("IntField", .callerConv 0)])) "IntField"
        = some (.defaultConv "conv_Int")
      ∧ ConvId.defaultConv "conv_Int" ≠ ConvId.callerConv 0 := by
  exact ⟨rfl, by decide⟩

/-- C5, counterexample: a geo-location field that declares choices does not
convert to nothing — the choices short-circuit precedes the type dispatch, so
it becomes a `SelectField` and its name appears in the built mapping. -/
theorem C5_unsupported_counterexample :
    convert demoGeoDoc demoGeoChoices none
        = some (.selectField { label := some (some "loc"), description := some "",
                               validators := [], filters := [], default := some none,
                               choices := some ["here", "there"] })
      ∧ resultKeys (model_fields (.document demoGeoDoc) none none []) = ["loc"] :=
  ⟨rfl, rfl⟩

/-- C8, counterexample: with `only=[]` (an empty but supplied name set) and
`exclude={"name"}`, the walk applies `exclude` — `if only:` is a truthiness
test, so the empty `only` does not win and the result keeps keys `age`,
`tags` instead of being empty. -/
theorem C8_empty_only_counterexample :
    model_fields (.document demoDoc) (some []) (some ["name"]) []
        = .ok (.cons "age" (.integerField kwAge)
            (.cons "tags" (.fieldList (some (.textField kwTagsInner)) 0 listKwargs) .nil))
      ∧ resultKeys (model_fields (.document demoDoc) (some []) (some ["name"]) [])
        = ["age", "tags"] :=
  ⟨rfl, rfl⟩

/-- C9: supplying `field_args={"age": {"label": "Years"}}` overrides only the
label of the produced `age` field; its other base kwargs (empty description,
validator list, filter list, declared default) remain the defaults, and the
`name` and `tags` fields are exactly the ones built without `field_args`. -/
theorem C9_field_args_label :
    model_fields (.document demoDoc) none none demoYearsArgs = .ok demoExpectedYears
      ∧ model_fields (.document demoDoc) none none [] = .ok demoExpected :=
  ⟨rfl, rfl⟩

/-- C6: `model_fields` raises a `TypeError` exactly on a class that is not a
mongoengine document schema; on a document schema class it never raises and
returns the field mapping. -/
theorem C6_type_error_iff :
    (∀ (n : String) (only exclude : Option (List String)) (fa : List (String × FieldArgs)),
        model_fields (.other n) only exclude fa
          = .error (.typeError "model must be a mongoengine Document schema"))
    ∧ (∀ (d : MDocument) (only exclude : Option (List String)) (fa : List (String × FieldArgs)),
        ∃ fs, model_fields (.document d) only exclude fa = .ok fs) := by
  refine ⟨fun n o e fa => rfl, fun d o e fa => ⟨_, rfl⟩⟩

/-- C7: sorted-list conversion is identical to list conversion — for every
schema, element descriptor and kwargs, `conv_SortedList` returns exactly what
`conv_List` returns, namely a field group with `min_entries=0` wrapping the
recursive conversion of the element descriptor with empty field args and the
inherited kwargs discarded; consequently `convert` treats a sorted-list field
and a list field with the same attributes identically. -/
theorem C7_sorted_list_eq_list :
    (∀ (model : MDocument) (elem : MField) (kwargs : Kwargs),
        conv_SortedList model elem kwargs = conv_List model elem kwargs
          ∧ conv_List model elem kwargs = .fieldList (convert model elem none) 0 listKwargs)
    ∧ (∀ (model : MDocument) (a : Attrs) (elem : MField) (fargs : Option FieldArgs),
        convert model (.sortedListField a elem) fargs
          = convert model (.listField a elem) fargs) := by
  refine ⟨fun model elem kwargs => ⟨rfl, rfl⟩, fun model a elem fargs => ?_⟩
  rw [convert.eq_def, convert.eq_def]
  rfl

/-- C4: a field that declares a non-empty choice list converts to a
`SelectField` whose choices are exactly the declared ones, for every
underlying field type and every per-field override — the choices
short-circuit fires before the `to_form_field` check and the registry
dispatch, so the type-specific converter is never applied. -/
theorem C4_choices_select :
    ∀ (model : MDocument) (field : MField) (fargs : Option FieldArgs),
      (MField.attrsOf field).choices ≠ [] →
      ∃ k, convert model field fargs = some (.selectField k)
        ∧ k.choices = some (MField.attrsOf field).choices := by
  intro model field fargs h
  have hb : (MField.attrsOf field).choices.isEmpty = false := by
    cases hc : (MField.attrsOf field).choices
    · exact absurd hc h
    · rfl
  rw [convert.eq_def]
  simp only [hb, Bool.not_false, if_true]
  exact ⟨_, rfl, rfl⟩

/-- Witness for C4 at the geo-location field with declared choices. -/
theorem C4_choices_select_witness :
    (MField.attrsOf demoGeoChoices).choices ≠ []
      ∧ ∃ k, convert demoGeoDoc demoGeoChoices none = some (.selectField k)
          ∧ k.choices = some (MField.attrsOf demoGeoChoices).choices :=
  ⟨by decide, C4_choices_select demoGeoDoc demoGeoChoices none (by decide)⟩

/-- C8 (amended): a non-empty `only` wins — whenever `only` is a non-empty
name set, the result of `model_fields` is independent of `exclude`; an empty
`only` is falsy under the `if only:` truthiness test, so it does not win (see
the counterexample). -/
theorem C8_only_wins_amended :
    ∀ (d : MDocument) (o : List String) (exclude : Option (List String))
      (fa : List (String × FieldArgs)),
      o ≠ [] →
      model_fields (.document d) (some o) exclude fa
        = model_fields (.document d) (some o) none fa := by
  intro d o e fa h
  have ht : truthyL (some o) = true := by
    cases o with
    | nil => exact absurd rfl h
    | cons x xs => rfl
  simp only [model_fields, ht, if_true]

/-- Witness for C8 on the demo schema with `only={"name"}`, `exclude={"age"}`. -/
theorem C8_only_wins_witness :
    (["name"] : List String) ≠ []
      ∧ model_fields (.document demoDoc) (some ["name"]) (some ["age"]) []
          = model_fields (.document demoDoc) (some ["name"]) none [] :=
  ⟨by decide, C8_only_wins_amended demoDoc ["name"] (some ["age"]) [] (by decide)⟩

/-- Writing a binding makes the key map to the written value. -/
theorem lookupC_dictSet_self (d : List (String × ConvId)) (k : String) (v : ConvId) :
    lookupC (dictSet d k v) k = some v := by
  induction d with
  | nil => simp [dictSet, lookupC]
  | cons p rest ih =>
    obtain ⟨k', v'⟩ := p
    by_cases h : k' = k
    · simp [dictSet, h, lookupC]
    · simp [dictSet, h, lookupC, ih]

/-- Writing a binding leaves every other key's lookup unchanged. -/
theorem lookupC_dictSet_of_ne (d : List (String × ConvId)) (k k' : String) (v : ConvId)
    (h : k' ≠ k) : lookupC (dictSet d k' v) k = lookupC d k := by
  induction d with
  | nil => simp [dictSet, lookupC, h]
  | cons p rest ih =>
    obtain ⟨a, b⟩ := p
    by_cases ha : a = k'
    · subst ha
      simp [dictSet, lookupC, h]
    · simp only [dictSet, if_neg ha]
      by_cases hak : a = k
      · simp [lookupC, hak]
      · simp [lookupC, hak, ih]

/-- Folding writes whose keys avoid `k` leaves `k`'s lookup unchanged. -/
theorem lookupC_foldl_of_not_mem (ps : List (String × String)) :
    ∀ (init : List (String × ConvId)) (k : String), k ∉ ps.map Prod.fst →
      lookupC (ps.foldl (fun acc p => dictSet acc p.1 (.defaultConv p.2)) init) k
        = lookupC init k := by
  induction ps with
  | nil => intro init k _; rfl
  | cons p rest ih =>
    intro init k hk
    simp only [List.map_cons, List.mem_cons] at hk
    push_neg at hk
    rw [List.foldl_cons, ih _ k hk.2]
    exact lookupC_dictSet_of_ne init k p.1 _ hk.1.symm

/-- After folding writes with pairwise-distinct keys over any initial dict,
every written key maps to its written value. -/
theorem lookupC_foldl_of_mem (ps : List (String × String)) :
    ∀ (init : List (String × ConvId)) (cls m : String), (cls, m) ∈ ps →
      (ps.map Prod.fst).Nodup →
      lookupC (ps.foldl (fun acc p => dictSet acc p.1 (.defaultConv p.2)) init) cls
        = some (.defaultConv m) := by
  induction ps with
  | nil => intro init cls m hm _; cases hm
  | cons p rest ih =>
    intro init cls m hm hnd
    simp only [List.map_cons, List.nodup_cons] at hnd
    rw [List.foldl_cons]
    rcases List.mem_cons.mp hm with heq | htail
    · subst heq
      rw [lookupC_foldl_of_not_mem rest _ cls hnd.1]
      exact lookupC_dictSet_self init cls _
    · exact ih _ cls m htail hnd.2

set_option maxHeartbeats 1000000 in
/-- C3 (amended): on a key collision the default entries win, not the
caller's — for every caller-supplied converters mapping and every field-type
name handled by a default conversion method, the registry built by
`ModelConverter.__init__` maps that name to the default method (the `dir`
loop writes the defaults into the caller's dict last), so the dispatch in
`convert` through the registry uses the default converter for such names;
caller entries only take effect for names no default method handles. -/
theorem C3_registry_merge_amended :
    ∀ (callerConverters : Option (List (String × ConvId))) (cls m : String),
      (cls, m) ∈ defaultMethods →
      lookupC (buildConverters callerConverters) cls = some (.defaultConv m) := by
  intro caller cls m hmem
  have hnd : (defaultMethods.map Prod.fst).Nodup := by
    simp [defaultMethods, List.nodup_cons, List.mem_cons]
  unfold buildConverters
  exact lookupC_foldl_of_mem defaultMethods _ cls m hmem hnd

/-- Witness for C3: caller overrides `IntField`, the registry still maps
`IntField` to the default `conv_Int`. -/
theorem C3_registry_merge_witness :
    ("IntField", "conv_Int") ∈ defaultMethods
      ∧ lookupC (buildConverters (some [("IntField", .callerConv 0)])) "IntField"
          = some (.defaultConv "conv_Int") :=
  ⟨by simp [defaultMethods], C3_registry_merge_amended (some [("IntField", .callerConv 0)])
    "IntField" "conv_Int" (by simp [defaultMethods])⟩

/-- Unfolding of the walk on the empty field dict. -/
theorem walkFields_nil (model : MDocument) (pred : String → Bool)
    (fa : List (String × FieldArgs)) :
    walkFields model pred fa .nil = .nil := rfl

/-- Unfolding of the walk on a field binding. -/
theorem walkFields_cons (model : MDocument) (pred : String → Bool)
    (fa : List (String × FieldArgs)) (n : String) (f : MField) (rest : MFields) :
    walkFields model pred fa (.cons n f rest)
      = if pred n then
          match convert model f (getFA fa n) with
          | some ff => .cons n ff (walkFields model pred fa rest)
          | none => walkFields model pred fa rest
        else walkFields model pred fa rest := rfl

/-- Unfolding of the field-dict lookup on a binding. -/
theorem lookupF_cons (n : String) (f : MField) (rest : MFields) (name : String) :
    MFields.lookupF (.cons n f rest) name
      = if n = name then some f else MFields.lookupF rest name := rfl

/-- A geo-location, object-id or generic-reference field with no choices and
no `to_form_field` method converts to nothing, whatever the schema and the
per-field overrides. -/
theorem convert_unsupportedPlain (m : MDocument) (field : MField) (fargs : Option FieldArgs)
    (h : unsupportedPlain field = true) : convert m field fargs = none := by
  cases field <;> simp [unsupportedPlain] at h <;>
    (obtain ⟨h1, h2⟩ := h; rw [convert.eq_def]; simp [MField.attrsOf, h1, h2])

/-- Every key of the walk's result is a key of the field dict. -/
theorem keys_walkFields_subset (model : MDocument) (pred : String → Bool)
    (fa : List (String × FieldArgs)) :
    (fs : MFields) → (name : String) →
    name ∈ (walkFields model pred fa fs).keys → name ∈ fs.keys
  | .nil, name, h => by simp [walkFields_nil, FormFields.keys] at h
  | .cons n f rest, name, h => by
      rw [walkFields_cons] at h
      simp only [MFields.keys, List.mem_cons]
      by_cases hp : pred n
      · rw [if_pos hp] at h
        cases hc : convert model f (getFA fa n) with
        | some ff =>
            rw [hc] at h
            simp only [FormFields.keys, List.mem_cons] at h
            rcases h with h | h
            · exact Or.inl h
            · exact Or.inr (keys_walkFields_subset model pred fa rest name h)
        | none =>
            rw [hc] at h
            exact Or.inr (keys_walkFields_subset model pred fa rest name h)
      · rw [if_neg hp] at h
        exact Or.inr (keys_walkFields_subset model pred fa rest name h)

/-- When the (unique-key) field dict binds `name` to a field that converts to
nothing, the walk's result does not contain `name`. -/
theorem not_mem_keys_walkFields (model : MDocument) (pred : String → Bool)
    (fa : List (String × FieldArgs)) :
    (fs : MFields) → (name : String) → (fld : MField) →
    fs.lookupF name = some fld → unsupportedPlain fld = true → fs.keys.Nodup →
    name ∉ (walkFields model pred fa fs).keys
  | .nil, name, fld, hlk, _, _ => by
      simp [MFields.lookupF] at hlk
  | .cons n f rest, name, fld, hlk, hup, hnd => by
      have hnd2 : rest.keys.Nodup := by
        simp only [MFields.keys, List.nodup_cons] at hnd
        exact hnd.2
      have hnmem : n ∉ rest.keys := by
        simp only [MFields.keys, List.nodup_cons] at hnd
        exact hnd.1
      rw [lookupF_cons] at hlk
      by_cases hn : n = name
      · subst hn
        rw [if_pos rfl] at hlk
        injection hlk with hf
        rw [← hf] at hup
        have hc : convert model f (getFA fa n) = none :=
          convert_unsupportedPlain model f _ hup
        intro hmem
        rw [walkFields_cons] at hmem
        by_cases hp : pred n
        · rw [if_pos hp, hc] at hmem
          exact hnmem (keys_walkFields_subset model pred fa rest n hmem)
        · rw [if_neg hp] at hmem
          exact hnmem (keys_walkFields_subset model pred fa rest n hmem)
      · rw [if_neg hn] at hlk
        have ih := not_mem_keys_walkFields model pred fa rest name fld hlk hup hnd2
        intro hmem
        rw [walkFields_cons] at hmem
        by_cases hp : pred n
        · rw [if_pos hp] at hmem
          cases hc : convert model f (getFA fa n) with
          | some ff =>
              rw [hc] at hmem
              simp only [FormFields.keys, List.mem_cons] at hmem
              rcases hmem with hmem | hmem
              · exact hn hmem.symm
              · exact ih hmem
          | none =>
              rw [hc] at hmem
              exact ih hmem
        · rw [if_neg hp] at hmem
          exact ih hmem

/-- C5 (amended): a geo-location, generic-reference or object-id field that
declares no choices and no `to_form_field` method always converts to
nothing, and `model_fields` on a schema binding such a field omits the
field's name from the returned mapping; a field of these types with declared
choices is instead short-circuited to a selection field (see the
counterexample), so the claim's unconditional "always" fails. -/
theorem C5_unsupported_amended :
    ∀ (d : MDocument) (only exclude : Option (List String))
      (fa : List (String × FieldArgs)) (name : String) (fld : MField),
      d.fieldsOf.lookupF name = some fld → unsupportedPlain fld = true →
      d.fieldsOf.keys.Nodup →
      (∀ (m : MDocument) (fargs : Option FieldArgs), convert m fld fargs = none)
        ∧ name ∉ resultKeys (model_fields (.document d) only exclude fa) := by
  intro d o e fa name fld hlk hup hnd
  refine ⟨fun m fargs => convert_unsupportedPlain m fld fargs hup, ?_⟩
  show name ∉ (walkFields d _ fa d.fieldsOf).keys
  exact not_mem_keys_walkFields d _ fa d.fieldsOf name fld hlk hup hnd

/-- Witness for C5 on a schema with a plain geo-location field `loc`. -/
theorem C5_unsupported_witness :
    convert demoGeoPlainDoc demoGeoPlain none = none
      ∧ "loc" ∉ resultKeys (model_fields (.document demoGeoPlainDoc) none none []) := by
  have h := C5_unsupported_amended demoGeoPlainDoc none none [] "loc" demoGeoPlain rfl rfl
    (by simp [demoGeoPlainDoc, MDocument.fieldsOf, MFields.keys])
  exact ⟨h.1 demoGeoPlainDoc none, h.2⟩

/-- Counting required validators distributes over list append. -/
theorem countRequired_append (a b : List Validator) :
    countRequired (a ++ b) = countRequired a + countRequired b := by
  simp [countRequired, List.filter_append]

/-- Appending a non-required validator does not change the required count. -/
theorem countRequired_appendValidator (k : Kwargs) (v : Validator) (h : isRequiredV v = false) :
    countRequired (appendValidator k v).validators = countRequired k.validators := by
  simp [appendValidator, countRequired_append, countRequired, List.filter, h]

/-- `_string_common` never adds a required validator. -/
theorem countRequired_string_common (ml mnl : Option Int) (k : Kwargs) :
    countRequired (string_common ml mnl k).validators = countRequired k.validators := by
  rw [string_common]
  split
  · exact countRequired_appendValidator k _ rfl
  · rfl

/-- `_number_common` never adds a required validator. -/
theorem countRequired_number_common (mv mnv : Option Int) (k : Kwargs) :
    countRequired (number_common mv mnv k).validators = countRequired k.validators := by
  rw [number_common]
  split
  · exact countRequired_appendValidator k _ rfl
  · rfl

/-- `conv_String` only adds regex and length validators. -/
theorem countRequired_conv_String (ml mnl : Option Int) (rgx : Option String) (k : Kwargs) :
    countRequired (conv_String ml mnl rgx k).kwargsOf.validators
      = countRequired k.validators := by
  rw [conv_String.eq_def]
  cases rgx <;> simp only [] <;> split <;>
    simp [FormField.kwargsOf, countRequired_string_common, countRequired_appendValidator,
          isRequiredV]

/-- `conv_URL` only adds URL and length validators. -/
theorem countRequired_conv_URL (ml mnl : Option Int) (k : Kwargs) :
    countRequired (conv_URL ml mnl k).kwargsOf.validators = countRequired k.validators := by
  rw [conv_URL]
  simp [FormField.kwargsOf, countRequired_string_common, countRequired_appendValidator,
        isRequiredV]

/-- `conv_Email` only adds email and length validators. -/
theorem countRequired_conv_Email (ml mnl : Option Int) (k : Kwargs) :
    countRequired (conv_Email ml mnl k).kwargsOf.validators = countRequired k.validators := by
  rw [conv_Email]
  simp [FormField.kwargsOf, countRequired_string_common, countRequired_appendValidator,
        isRequiredV]

/-- `conv_Binary` only adds a length validator. -/
theorem countRequired_conv_Binary (mb : Option Int) (k : Kwargs) :
    countRequired (conv_Binary mb k).kwargsOf.validators = countRequired k.validators := by
  rw [conv_Binary]
  split <;> simp [FormField.kwargsOf, countRequired_appendValidator, isRequiredV]

set_option maxHeartbeats 1000000 in
/-- A required non-container field converts (with no per-field overrides) to
a field carrying exactly one required validator. -/
theorem countRequired_convert_noncontainer :
    ∀ (m : MDocument) (field : MField) (ff : FormField),
      (MField.attrsOf field).required = true → isContainer field = false →
      convert m field none = some ff → countRequired ff.kwargsOf.validators = 1 := by
  intro m field ff hreq hcont hconv
  have hone : ∀ a : Attrs, a.required = true →
      countRequired (appendValidator (baseKwargs a) .required).validators = 1 := by
    intro a _
    simp [appendValidator, baseKwargs, countRequired, isRequiredV]
  cases field with
  | stringField a ml mnl rgx =>
      rw [convert.eq_def] at hconv
      simp only [MField.attrsOf] at hconv hreq
      rw [hreq] at hconv
      simp only [if_true] at hconv
      split at hconv
      · injection hconv with hinj
        subst hinj
        simp only [FormField.kwargsOf]
        exact hone a hreq
      · cases hTF : a.toFormField with
        | some tag =>
            rw [hTF] at hconv
            injection hconv with hinj
            subst hinj
            simp only [FormField.kwargsOf]
            exact hone a hreq
        | none =>
            rw [hTF] at hconv
            injection hconv with hinj
            subst hinj
            rw [countRequired_conv_String]
            exact hone a hreq
  | urlField a ml mnl =>
      rw [convert.eq_def] at hconv
      simp only [MField.attrsOf] at hconv hreq
      rw [hreq] at hconv
      simp only [if_true] at hconv
      split at hconv
      · injection hconv with hinj
        subst hinj
        simp only [FormField.kwargsOf]
        exact hone a hreq
      · cases hTF : a.toFormField with
        | some tag =>
            rw [hTF] at hconv
            injection hconv with hinj
            subst hinj
            simp only [FormField.kwargsOf]
            exact hone a hreq
        | none =>
            rw [hTF] at hconv
            injection hconv with hinj
            subst hinj
            rw [countRequired_conv_URL]
            exact hone a hreq
  | emailField a ml mnl =>
      rw [convert.eq_def] at hconv
      simp only [MField.attrsOf] at hconv hreq
      rw [hreq] at hconv
      simp only [if_true] at hconv
      split at hconv
      · injection hconv with hinj
        subst hinj
        simp only [FormField.kwargsOf]
        exact hone a hreq
      · cases hTF : a.toFormField with
        | some tag =>
            rw [hTF] at hconv
            injection hconv with hinj
            subst hinj
            simp only [FormField.kwargsOf]
            exact hone a hreq
        | none =>
            rw [hTF] at hconv
            injection hconv with hinj
            subst hinj
            rw [countRequired_conv_Email]
            exact hone a hreq
  | intField a mv mnv =>
      rw [convert.eq_def] at hconv
      simp only [MField.attrsOf] at hconv hreq
      rw [hreq] at hconv
      simp only [if_true] at hconv
      split at hconv
      · injection hconv with hinj
        subst hinj
        simp only [FormField.kwargsOf]
        exact hone a hreq
      · cases hTF : a.toFormField with
        | some tag =>
            rw [hTF] at hconv
            injection hconv with hinj
            subst hinj
            simp only [FormField.kwargsOf]
            exact hone a hreq
        | none =>
            rw [hTF] at hconv
            injection hconv with hinj
            subst hinj
            rw [conv_Int]
            simp only [FormField.kwargsOf]
            rw [countRequired_number_common]
            exact hone a hreq
  | floatField a mv mnv =>
      rw [convert.eq_def] at hconv
      simp only [MField.attrsOf] at hconv hreq
      rw [hreq] at hconv
      simp only [if_true] at hconv
      split at hconv
      · injection hconv with hinj
        subst hinj
        simp only [FormField.kwargsOf]
        exact hone a hreq
      · cases hTF : a.toFormField with
        | some tag =>
            rw [hTF] at hconv
            injection hconv with hinj
            subst hinj
            simp only [FormField.kwargsOf]
            exact hone a hreq
        | none =>
            rw [hTF] at hconv
            injection hconv with hinj
            subst hinj
            rw [conv_Float]
            simp only [FormField.kwargsOf]
            rw [countRequired_number_common]
            exact hone a hreq
  | decimalField a mv mnv =>
      rw [convert.eq_def] at hconv
      simp only [MField.attrsOf] at hconv hreq
      rw [hreq] at hconv
      simp only [if_true] at hconv
      split at hconv
      · injection hconv with hinj
        subst hinj
        simp only [FormField.kwargsOf]
        exact hone a hreq
      · cases hTF : a.toFormField with
        | some tag =>
            rw [hTF] at hconv
            injection hconv with hinj
            subst hinj
            simp only [FormField.kwargsOf]
            exact hone a hreq
        | none =>
            rw [hTF] at hconv
            injection hconv with hinj
            subst hinj
            rw [conv_Decimal]
            simp only [FormField.kwargsOf]
            rw [countRequired_number_common]
            exact hone a hreq
  | booleanField a =>
      rw [convert.eq_def] at hconv
      simp only [MField.attrsOf] at hconv hreq
      rw [hreq] at hconv
      simp only [if_true] at hconv
      split at hconv
      · injection hconv with hinj
        subst hinj
        simp only [FormField.kwargsOf]
        exact hone a hreq
      · cases hTF : a.toFormField with
        | some tag =>
            rw [hTF] at hconv
            injection hconv with hinj
            subst hinj
            simp only [FormField.kwargsOf]
            exact hone a hreq
        | none =>
            rw [hTF] at hconv
            injection hconv with hinj
            subst hinj
            rw [conv_Boolean]
            simp only [FormField.kwargsOf]
            exact hone a hreq
  | dateTimeField a =>
      rw [convert.eq_def] at hconv
      simp only [MField.attrsOf] at hconv hreq
      rw [hreq] at hconv
      simp only [if_true] at hconv
      split at hconv
      · injection hconv with hinj
        subst hinj
        simp only [FormField.kwargsOf]
        exact hone a hreq
      · cases hTF : a.toFormField with
        | some tag =>
            rw [hTF] at hconv
            injection hconv with hinj
            subst hinj
            simp only [FormField.kwargsOf]
            exact hone a hreq
        | none =>
            rw [hTF] at hconv
            injection hconv with hinj
            subst hinj
            rw [conv_DateTime]
            simp only [FormField.kwargsOf]
            exact hone a hreq
  | binaryField a mb =>
      rw [convert.eq_def] at hconv
      simp only [MField.attrsOf] at hconv hreq
      rw [hreq] at hconv
      simp only [if_true] at hconv
      split at hconv
      · injection hconv with hinj
        subst hinj
        simp only [FormField.kwargsOf]
        exact hone a hreq
      · cases hTF : a.toFormField with
        | some tag =>
            rw [hTF] at hconv
            injection hconv with hinj
            subst hinj
            simp only [FormField.kwargsOf]
            exact hone a hreq
        | none =>
            rw [hTF] at hconv
            injection hconv with hinj
            subst hinj
            rw [countRequired_conv_Binary]
            exact hone a hreq
  | dictField a =>
      rw [convert.eq_def] at hconv
      simp only [MField.attrsOf] at hconv hreq
      rw [hreq] at hconv
      simp only [if_true] at hconv
      split at hconv
      · injection hconv with hinj
        subst hinj
        simp only [FormField.kwargsOf]
        exact hone a hreq
      · cases hTF : a.toFormField with
        | some tag =>
            rw [hTF] at hconv
            injection hconv with hinj
            subst hinj
            simp only [FormField.kwargsOf]
            exact hone a hreq
        | none =>
            rw [hTF] at hconv
            injection hconv with hinj
            subst hinj
            rw [conv_Dict]
            simp only [FormField.kwargsOf]
            exact hone a hreq
  | referenceField a dn =>
      rw [convert.eq_def] at hconv
      simp only [MField.attrsOf] at hconv hreq
      rw [hreq] at hconv
      simp only [if_true] at hconv
      split at hconv
      · injection hconv with hinj
        subst hinj
        simp only [FormField.kwargsOf]
        exact hone a hreq
      · cases hTF : a.toFormField with
        | some tag =>
            rw [hTF] at hconv
            injection hconv with hinj
            subst hinj
            simp only [FormField.kwargsOf]
            exact hone a hreq
        | none =>
            rw [hTF] at hconv
            injection hconv with hinj
            subst hinj
            rw [conv_Reference]
            simp only [FormField.kwargsOf]
            exact hone a hreq
  | geoLocationField a =>
      rw [convert.eq_def] at hconv
      simp only [MField.attrsOf] at hconv hreq
      rw [hreq] at hconv
      simp only [if_true] at hconv
      split at hconv
      · injection hconv with hinj
        subst hinj
        simp only [FormField.kwargsOf]
        exact hone a hreq
      · cases hTF : a.toFormField with
        | some tag =>
            rw [hTF] at hconv
            injection hconv with hinj
            subst hinj
            simp only [FormField.kwargsOf]
            exact hone a hreq
        | none =>
            rw [hTF] at hconv
            exact Option.noConfusion hconv
  | objectIdField a =>
      rw [convert.eq_def] at hconv
      simp only [MField.attrsOf] at hconv hreq
      rw [hreq] at hconv
      simp only [if_true] at hconv
      split at hconv
      · injection hconv with hinj
        subst hinj
        simp only [FormField.kwargsOf]
        exact hone a hreq
      · cases hTF : a.toFormField with
        | some tag =>
            rw [hTF] at hconv
            injection hconv with hinj
            subst hinj
            simp only [FormField.kwargsOf]
            exact hone a hreq
        | none =>
            rw [hTF] at hconv
            exact Option.noConfusion hconv
  | genericReferenceField a =>
      rw [convert.eq_def] at hconv
      simp only [MField.attrsOf] at hconv hreq
      rw [hreq] at hconv
      simp only [if_true] at hconv
      split at hconv
      · injection hconv with hinj
        subst hinj
        simp only [FormField.kwargsOf]
        exact hone a hreq
      · cases hTF : a.toFormField with
        | some tag =>
            rw [hTF] at hconv
            injection hconv with hinj
            subst hinj
            simp only [FormField.kwargsOf]
            exact hone a hreq
        | none =>
            rw [hTF] at hconv
            exact Option.noConfusion hconv
  | otherField a tn =>
      rw [convert.eq_def] at hconv
      simp only [MField.attrsOf] at hconv hreq
      rw [hreq] at hconv
      simp only [if_true] at hconv
      split at hconv
      · injection hconv with hinj
        subst hinj
        simp only [FormField.kwargsOf]
        exact hone a hreq
      · cases hTF : a.toFormField with
        | some tag =>
            rw [hTF] at hconv
            injection hconv with hinj
            subst hinj
            simp only [FormField.kwargsOf]
            exact hone a hreq
        | none =>
            rw [hTF] at hconv
            exact Option.noConfusion hconv
  | listField a e => simp [isContainer] at hcont
  | sortedListField a e => simp [isContainer] at hcont
  | embeddedDocumentField a d => simp [isContainer] at hcont

/-- A required container field (list, sorted-list, embedded-document)
without choices and without `to_form_field` converts to a field carrying no
required validator at all: its converter rebuilds the kwargs dict. -/
theorem countRequired_convert_container :
    ∀ (m : MDocument) (field : MField) (ff : FormField),
      (MField.attrsOf field).required = true → isContainer field = true →
      (MField.attrsOf field).choices = [] → (MField.attrsOf field).toFormField = none →
      convert m field none = some ff → countRequired ff.kwargsOf.validators = 0 := by
  intro m field ff _hreq hcont hch htf hconv
  cases field with
  | listField a e =>
      rw [convert.eq_def] at hconv
      simp only [MField.attrsOf] at hch htf hconv
      simp [hch, htf] at hconv
      subst hconv
      simp [FormField.kwargsOf, listKwargs, countRequired]
  | sortedListField a e =>
      rw [convert.eq_def] at hconv
      simp only [MField.attrsOf] at hch htf hconv
      simp [hch, htf] at hconv
      subst hconv
      simp [FormField.kwargsOf, listKwargs, countRequired]
  | embeddedDocumentField a d =>
      obtain ⟨dn, dfs⟩ := d
      rw [convert.eq_def] at hconv
      simp only [MField.attrsOf] at hch htf hconv
      simp [hch, htf] at hconv
      subst hconv
      simp [FormField.kwargsOf, listKwargs, countRequired]
  | stringField a ml mnl rgx => simp [isContainer] at hcont
  | urlField a ml mnl => simp [isContainer] at hcont
  | emailField a ml mnl => simp [isContainer] at hcont
  | intField a mv mnv => simp [isContainer] at hcont
  | floatField a mv mnv => simp [isContainer] at hcont
  | decimalField a mv mnv => simp [isContainer] at hcont
  | booleanField a => simp [isContainer] at hcont
  | dateTimeField a => simp [isContainer] at hcont
  | binaryField a mb => simp [isContainer] at hcont
  | dictField a => simp [isContainer] at hcont
  | geoLocationField a => simp [isContainer] at hcont
  | objectIdField a => simp [isContainer] at hcont
  | referenceField a dn => simp [isContainer] at hcont
  | genericReferenceField a => simp [isContainer] at hcont
  | otherField a tn => simp [isContainer] at hcont

/-- C2 (amended): a required field whose conversion produces a form field
gets exactly one required-style validator in addition to the type-specific
validators — except that the list, sorted-list and embedded-document
converters discard the inherited kwargs, so for a required field of those
types (without choices and without `to_form_field`) the produced field
carries zero required validators (see the counterexample). -/
theorem C2_required_validator_amended :
    (∀ (m : MDocument) (field : MField) (ff : FormField),
        (MField.attrsOf field).required = true → isContainer field = false →
        convert m field none = some ff → countRequired ff.kwargsOf.validators = 1)
    ∧ (∀ (m : MDocument) (field : MField) (ff : FormField),
        (MField.attrsOf field).required = true → isContainer field = true →
        (MField.attrsOf field).choices = [] → (MField.attrsOf field).toFormField = none →
        convert m field none = some ff → countRequired ff.kwargsOf.validators = 0) :=
  ⟨countRequired_convert_noncontainer, countRequired_convert_container⟩

/-- Witness for C2 at the required `name` string field of the demo schema. -/
theorem C2_required_validator_witness :
    (MField.attrsOf demoNameField).required = true
      ∧ isContainer demoNameField = false
      ∧ convert demoDoc demoNameField none = some (.textField kwName)
      ∧ countRequired (FormField.kwargsOf (.textField kwName)).validators = 1 := by
  refine ⟨rfl, rfl, rfl, ?_⟩
  exact C2_required_validator_amended.1 demoDoc demoNameField (.textField kwName) rfl rfl rfl

/-- `_string_common` appends exactly the length-validator part. -/
theorem validators_string_common (ml mnl : Option Int) (k : Kwargs) :
    (string_common ml mnl k).validators = k.validators ++ lengthValidators ml mnl := by
  rw [string_common]
  split <;> rename_i h <;> simp [appendValidator, lengthValidators, h]

/-- The validators of the field `conv_String` builds: the incoming
validators, then the regex validator when a regex is declared, then the
length-validator part. -/
theorem validators_conv_String (ml mnl : Option Int) (rgx : Option String) (k : Kwargs) :
    (conv_String ml mnl rgx k).kwargsOf.validators
      = (k.validators ++ (match rgx with | some r => [Validator.regexp r] | none => []))
          ++ lengthValidators ml mnl := by
  rw [conv_String.eq_def]
  cases rgx <;> simp only [] <;> split <;>
    simp [FormField.kwargsOf, validators_string_common, appendValidator]

/-- C10: a string field without choices whose descriptor declares a regex
gets a regex validator appended right after the required part and before the
length validator; a string field without a regex gets no regex validator. -/
theorem C10_regex_validator :
    ∀ (m : MDocument) (a : Attrs) (ml mnl : Option Int) (r : String),
      a.choices = [] → a.toFormField = none →
      ((convert m (.stringField a ml mnl (some r)) none).map fun ff => ff.kwargsOf.validators)
          = some (reqValidators a ++ ([Validator.regexp r] ++ lengthValidators ml mnl))
        ∧ ((convert m (.stringField a ml mnl none) none).map fun ff => ff.kwargsOf.validators)
          = some (reqValidators a ++ lengthValidators ml mnl) := by
  intro m a ml mnl r hch htf
  have key : ∀ rgx : Option String,
      ((convert m (.stringField a ml mnl rgx) none).map fun ff => ff.kwargsOf.validators)
        = some ((reqValidators a
              ++ (match rgx with | some s => [Validator.regexp s] | none => []))
            ++ lengthValidators ml mnl) := by
    intro rgx
    rw [convert.eq_def]
    simp only [MField.attrsOf]
    simp [hch, htf]
    rw [validators_conv_String]
    cases hreq : a.required <;>
      simp [appendValidator, baseKwargs, reqValidators, hreq]
  constructor
  · rw [key (some r)]
    simp
  · rw [key none]
    simp

/-- Witness for C10 on an unconstrained string field with regex `abc`. -/
theorem C10_regex_validator_witness :
    demoStrAttrs.choices = [] ∧ demoStrAttrs.toFormField = none
      ∧ (((convert demoDoc (.stringField demoStrAttrs none none (some "abc")) none).map
            fun ff => ff.kwargsOf.validators)
          = some (reqValidators demoStrAttrs
              ++ ([Validator.regexp "abc"] ++ lengthValidators none none))
        ∧ ((convert demoDoc (.stringField demoStrAttrs none none none) none).map
            fun ff => ff.kwargsOf.validators)
          = some (reqValidators demoStrAttrs ++ lengthValidators none none)) :=
  ⟨rfl, rfl, C10_regex_validator demoDoc demoStrAttrs none none "abc" rfl rfl⟩

end Orm
